import Mathlib

/-!
Shallow embedding of `youtube_downloader.py` and verification of its
specification.

Conventions of the embedding:
* Python dictionaries with optional keys become structures whose optional
  fields have type `Option _`; `d.get(k, default)` becomes `Option.getD`,
  and a raising access `d[k]` on a possibly-missing key is modelled by
  matching on the `Option` and aborting the enclosing computation.
* The external extraction service (`yt_dlp`) is a collaborator: its response
  (or the exception it raises) is passed in as an `Except` value, and the
  functions that call it are modelled as pure functions of that value.
* Python float division followed by `int(...)` truncation of a nonnegative
  quantity is modelled by natural-number division; the `%.2f` rendering of
  `format_size` is modelled with exact rationals rounded to hundredths.
* Streamlit UI calls (`st.error`, `st.progress`, ...) are effects on an
  external sink; a function's *emission* to the sink is modelled as part of
  its return value (`Option` for "maybe nothing is emitted").
-/

namespace YoutubeDownloader

/-! ## Raw metadata from the extraction service

One entry of `info['formats']` as `get_video_info` reads it: `format_id`
and `ext` are accessed by direct indexing (always present in a yt-dlp
format record), the remaining keys are read with `.get` and may be absent.
-/

structure RawFormat where
  format_id : String
  ext : String
  vcodec : Option String
  acodec : Option String
  filesize : Option Nat
  format_note : Option String
  resolution : Option String
deriving DecidableEq, Repr

/-- The fields of `info` that `get_video_info` reads, besides `formats`. -/
structure RawInfo where
  title : Option String
  duration : Option Nat
  thumbnail : Option String
  formats : List RawFormat
  uploader : Option String
  view_count : Option Nat
deriving DecidableEq, Repr

/-! ## format_size -/

/-- Two-digit rendering of `n` (`0 ≤ n < 100`), as in the fraction part of
a `%.2f` format. -/
def twoDigits (n : Int) : String :=
  if n < 10 then "0" ++ toString n else toString n

/-- Python `f"{x:.2f}"` for a nonnegative value: round to hundredths and
print with exactly two decimals. -/
def py2f (q : ℚ) : String :=
  let c : Int := ⌊q * 100 + 1 / 2⌋
  toString (c / 100) ++ "." ++ twoDigits (c % 100)

/-- The unit loop of `format_size`: divide by 1024 until below 1024 or the
unit list is exhausted, then fall through to `"GB"`. -/
def format_size_aux : List String → ℚ → String
  | [], b => py2f b ++ " GB"
  | u :: us, b => if b < 1024 then py2f b ++ " " ++ u else format_size_aux us (b / 1024)

/-- `format_size(bytes)`: convert bytes to human readable form. -/
def format_size (b : ℚ) : String :=
  format_size_aux ["B", "KB", "MB", "GB"] b

/-! ## The catalog record built per retained format -/

structure FormatInfo where
  format_id : String
  ext : String
  filesize : String
  format_note : String
  vcodec : String
  acodec : String
  resolution : String
  description : String
deriving DecidableEq, Repr

/-- `format_size(f.get('filesize', 0)) if f.get('filesize') else 'N/A'`:
an absent size, and also a present size of `0` (falsy), render as the
sentinel `"N/A"`. -/
def normFilesize (f : RawFormat) : String :=
  match f.filesize with
  | none => "N/A"
  | some n => if n = 0 then "N/A" else format_size (n : ℚ)

/-- The body of the `for f in info['formats']` loop for one retained entry:
build `format_info` and its `description`.  The description branches on the
raw `f['vcodec']` (a direct index): when the key is absent the loop raises
`KeyError`, modelled by returning `none`, which aborts the whole
extraction. -/
def processFormat (f : RawFormat) : Option FormatInfo :=
  match f.vcodec with
  | none => none
  | some vc =>
    let fsize := normFilesize f
    let note := f.format_note.getD ""
    let res := f.resolution.getD "N/A"
    some
      { format_id := f.format_id
        ext := f.ext
        filesize := fsize
        format_note := note
        vcodec := if f.vcodec = some "none" then "none" else f.vcodec.getD "N/A"
        acodec := if f.acodec = some "none" then "none" else f.acodec.getD "N/A"
        resolution := res
        description :=
          if vc = "none" then "Audio only (" ++ note ++ ") - " ++ fsize
          else "Video (" ++ res ++ ") - " ++ fsize }

/-- Whether the loop keeps `f`: entries with both codecs reported as the
string `"none"` are skipped. -/
def keeps (f : RawFormat) : Bool :=
  !(f.vcodec = some "none" && f.acodec = some "none")

/-- The whole `for f in info['formats']` loop: the ordered list of retained,
normalized records, or `none` when some retained entry made the loop raise. -/
def buildFormats : List RawFormat → Option (List FormatInfo)
  | [] => some []
  | f :: rest =>
    if keeps f then
      match processFormat f with
      | none => none
      | some fi => (buildFormats rest).map (fun fs => fi :: fs)
    else buildFormats rest

/-- The dictionary returned by `get_video_info` on success. -/
structure VideoInfo where
  title : String
  duration : Nat
  thumbnail : Option String
  formats : List FormatInfo
  channel : String
  view_count : Nat
deriving DecidableEq, Repr

/-- `get_video_info(url)` as a function of the extraction outcome: any
exception (from `extract_info` or from the loop) is caught, shown with
`st.error`, and turned into `None`. -/
def get_video_info (extract : Except String RawInfo) : Option VideoInfo :=
  match extract with
  | Except.error _ => none
  | Except.ok info =>
    match buildFormats info.formats with
    | none => none
    | some fs =>
      some
        { title := info.title.getD "Untitled"
          duration := info.duration.getD 0
          thumbnail := info.thumbnail
          formats := fs
          channel := info.uploader.getD "Unknown"
          view_count := info.view_count.getD 0 }

example :
    buildFormats [{ format_id := "f1", ext := "mp4", vcodec := some "none",
                    acodec := some "none", filesize := none, format_note := none,
                    resolution := none }] = some [] := by decide

/-! ## Format selection in `main`

`main` splits the catalog into video-capable and audio-only entries, builds
a Python dict from description to format id, and hands the dict's keys to a
select box whose default choice is the first listed option. -/

/-- `[f for f in info['formats'] if f['vcodec'] != 'none']` -/
def video_formats (fs : List FormatInfo) : List FormatInfo :=
  fs.filter (fun f => f.vcodec ≠ "none")

/-- `[f for f in info['formats'] if f['vcodec'] == 'none' and f['acodec'] != 'none']` -/
def audio_formats (fs : List FormatInfo) : List FormatInfo :=
  fs.filter (fun f => f.vcodec = "none" && f.acodec ≠ "none")

/-- Python dict assignment `d[k] = v`: overwrite the value if the key is
present (keeping its insertion position), else append the pair. -/
def dictInsert (d : List (String × String)) (k v : String) : List (String × String) :=
  if d.any (fun p => p.1 = k) then
    d.map (fun p => if p.1 = k then (k, v) else p)
  else d ++ [(k, v)]

/-- `{f['description']: f['format_id'] for f in formats}` with dict
insertion-order semantics. -/
def format_options (fs : List FormatInfo) : List (String × String) :=
  fs.foldl (fun d f => dictInsert d f.description f.format_id) []

/-- The format id selected when the user leaves the select box on its
default: `st.selectbox` preselects the first listed option, and the chosen
id is the dict's value for that description. -/
def default_selection (fs : List FormatInfo) : Option String :=
  (format_options (video_formats fs)).head?.map (fun p => p.2)

/-! ## download_video and the progress hook -/

/-- `download_video(url, save_dir, format_id)` as a function of the
outcome of `ydl.download([url])`: an exception is caught, shown with
`st.error`, and turned into `False`; otherwise `True`. -/
def download_video (res : Except String Unit) : Bool :=
  match res with
  | Except.ok _ => true
  | Except.error _ => false

/-- One progress-hook dictionary `d` as `download_progress_hook` reads it. -/
structure ProgressEvent where
  status : String
  total_bytes : Option Nat
  total_bytes_estimate : Option Nat
  downloaded_bytes : Option Nat
deriving DecidableEq, Repr

/-- `download_progress_hook(d)`: the percentage pushed to the progress bar,
or `none` when nothing is pushed.  `total` is
`d.get('total_bytes', 0) or d.get('total_bytes_estimate', 0)` (Python `or`
on a falsy zero), and `int((downloaded / total) * 100)` truncates the
nonnegative ratio, which is natural-number division. -/
def download_progress_hook (d : ProgressEvent) : Option Nat :=
  if d.status = "downloading" then
    let tb := d.total_bytes.getD 0
    let total := if tb ≠ 0 then tb else d.total_bytes_estimate.getD 0
    let downloaded := d.downloaded_bytes.getD 0
    if total ≠ 0 then some (downloaded * 100 / total) else none
  else none

/-! ## is_valid_youtube_url

URL parsing itself is the standard library's `urlparse`/`parse_qs`
(external collaborators); the function is modelled over the parsed result.
The Python body is wrapped in a catch-all `try`/`except` returning `None`,
so the function is total — as is this model. -/

/-- The parts of a `urlparse` result that `is_valid_youtube_url` reads.
`query` is the raw query string as a list of key/value pairs. -/
structure ParsedUrl where
  netloc : String
  path : String
  query : List (String × String)
deriving DecidableEq, Repr

/-- `parse_qs(query).get('v', [None])[0]`: `parse_qs` drops pairs with a
blank value, groups the rest by key, and the first `v` value (if any) is
taken. -/
def query_v (q : List (String × String)) : Option String :=
  match q.filter (fun p => p.1 = "v" && p.2 ≠ "") with
  | [] => none
  | p :: _ => some p.2

/-- `is_valid_youtube_url(url)`: validate the host, then extract the video
id — the path after the slash for `youtu.be`, the `v` query parameter for
`/watch` on a youtube.com host, `None` otherwise. -/
def is_valid_youtube_url (u : ParsedUrl) : Option String :=
  if u.netloc ≠ "www.youtube.com" ∧ u.netloc ≠ "youtube.com" ∧ u.netloc ≠ "youtu.be" then
    none
  else if u.netloc = "youtu.be" then some (u.path.drop 1)
  else if u.path = "/watch" then query_v u.query
  else none

/-! ## sanitize_filename -/

/-- The character filter of `sanitize_filename`: keep `c` when
`c.isalnum() or c in (' ', '-', '_')`. -/
def pyKeep (c : Char) : Bool :=
  c.isAlphanum || c = ' ' || c = '-' || c = '_'

/-- Python `str.strip()`: drop leading and trailing whitespace. -/
def pyStrip (l : List Char) : List Char :=
  ((l.dropWhile Char.isWhitespace).reverse.dropWhile Char.isWhitespace).reverse

/-- `re.sub(r'\s+', ' ', ...)`: replace each maximal whitespace run by a
single space.  Formulated pairwise: a whitespace character followed by
another whitespace character is dropped (the run survives as its last
character), and every surviving whitespace character becomes `' '`. -/
def collapse : List Char → List Char
  | [] => []
  | [c] => if c.isWhitespace then [' '] else [c]
  | a :: b :: rest =>
    if a.isWhitespace && b.isWhitespace then collapse (b :: rest)
    else (if a.isWhitespace then ' ' else a) :: collapse (b :: rest)

/-- `sanitize_filename(title)`: filter characters, strip, collapse
whitespace, and fall back to `"video"` when the result is empty. -/
def sanitize_filename (title : String) : String :=
  let filtered := title.toList.filter pyKeep
  let stripped := pyStrip filtered
  let collapsed := collapse stripped
  if collapsed.isEmpty then "video" else String.mk collapsed

example : sanitize_filename "  My/ Video::Title!  " = "My VideoTitle" := by decide

example : sanitize_filename "///" = "video" := by decide

/-! ## Lifecycle / Cleanup (modelled from the spec)

The source file has no cleanup, temp-file or merge code at all — downloads
are written straight to the target directory by `yt_dlp` and nothing is
ever deleted.  The Lifecycle/Cleanup component is therefore modelled from
the spec alone. -/

/-- Modelled from the spec: a `DownloadSession`'s `artifacts` mapping from
stream id to the local temporary file path written for that stream.  The
source repository contains no session or cleanup code. -/
structure DownloadSession where
  artifacts : List (String × String)
deriving DecidableEq, Repr

/-- Modelled from the spec: a guarded delete on a filesystem, modelled as
the list of paths currently present — removing a path that is absent is a
no-op rather than an error. -/
def deleteIfExists (fs : List String) (p : String) : List String :=
  fs.filter (fun q => q ≠ p)

/-- Modelled from the spec: Cleanup removes every temporary per-track file
recorded in the session's `artifacts` from the filesystem. -/
def cleanup (fs : List String) (s : DownloadSession) : List String :=
  s.artifacts.foldl (fun acc a => deleteIfExists acc a.2) fs

/-- Modelled from the spec: one download session on filesystem `fs0` — the
orchestrator writes every per-track temp file, the merge step adds the
final output `out` only when it succeeds, and Cleanup then runs
unconditionally (the scoped release on every exit path, merge failure
included). -/
def runSession (fs0 : List String) (s : DownloadSession) (mergeOk : Bool)
    (out : String) : List String :=
  let fetched := fs0 ++ s.artifacts.map (fun a => a.2)
  let merged := if mergeOk then fetched ++ [out] else fetched
  cleanup merged s

/-! ## Concrete inputs and auxiliary predicates used by the verification -/

/-- A raw entry with both codecs reported `"none"`: unusable. -/
def c1raw : RawFormat :=
  { format_id := "f1", ext := "mp4", vcodec := some "none", acodec := some "none",
    filesize := none, format_note := none, resolution := none }

/-- An extraction response whose format list has zero usable entries. -/
def c1info : RawInfo :=
  { title := some "T", duration := some 10, thumbnail := none,
    formats := [c1raw], uploader := some "U", view_count := some 5 }

/-- A usable raw entry whose optional size, note and resolution are all
absent. -/
def c2raw : RawFormat :=
  { format_id := "22", ext := "mp4", vcodec := some "avc1.64001F",
    acodec := some "mp4a.40.2", filesize := none, format_note := none,
    resolution := none }

/-- The record `c2raw` normalizes to. -/
def c2fi : FormatInfo :=
  { format_id := "22", ext := "mp4", filesize := "N/A", format_note := "",
    vcodec := "avc1.64001F", acodec := "mp4a.40.2", resolution := "N/A",
    description := "Video (N/A) - N/A" }

/-- A usable audio-only raw entry. -/
def c3raw : RawFormat :=
  { format_id := "140", ext := "m4a", vcodec := some "none",
    acodec := some "mp4a.40.2", filesize := none,
    format_note := some "medium", resolution := none }

/-- The record `c3raw` normalizes to. -/
def c3fi : FormatInfo :=
  { format_id := "140", ext := "m4a", filesize := "N/A",
    format_note := "medium", vcodec := "none", acodec := "mp4a.40.2",
    resolution := "N/A", description := "Audio only (medium) - N/A" }

/-- A downloading event with a known exact total `t` and `d` downloaded
bytes. -/
def mkEv (t d : Nat) : ProgressEvent :=
  { status := "downloading", total_bytes := some t,
    total_bytes_estimate := none, downloaded_bytes := some d }

/-- A session that fetched two per-track temp files. -/
def c8s : DownloadSession :=
  { artifacts := [("v1", "tmp_v1.mp4"), ("a1", "tmp_a1.m4a")] }

/-- A combined (video+audio) raw stream at 360p, listed first. -/
def c4raw1 : RawFormat :=
  { format_id := "18", ext := "mp4", vcodec := some "avc1.42001E",
    acodec := some "mp4a.40.2", filesize := none, format_note := none,
    resolution := some "640x360" }

/-- A combined (video+audio) raw stream at 720p, listed second. -/
def c4raw2 : RawFormat :=
  { format_id := "22", ext := "mp4", vcodec := some "avc1.64001F",
    acodec := some "mp4a.40.2", filesize := none, format_note := none,
    resolution := some "1280x720" }

/-- The record `c4raw1` normalizes to. -/
def c4fi1 : FormatInfo :=
  { format_id := "18", ext := "mp4", filesize := "N/A", format_note := "",
    vcodec := "avc1.42001E", acodec := "mp4a.40.2", resolution := "640x360",
    description := "Video (640x360) - N/A" }

/-- The record `c4raw2` normalizes to. -/
def c4fi2 : FormatInfo :=
  { format_id := "22", ext := "mp4", filesize := "N/A", format_note := "",
    vcodec := "avc1.64001F", acodec := "mp4a.40.2", resolution := "1280x720",
    description := "Video (1280x720) - N/A" }

/-- The head of the list, when present, is not whitespace. -/
def headNotWS (l : List Char) : Prop :=
  ∀ c, l.head? = some c → c.isWhitespace = false

/-- The last element of the list, when present, is not whitespace. -/
def lastNotWS (l : List Char) : Prop :=
  ∀ c, l.getLast? = some c → c.isWhitespace = false

/-- No two adjacent whitespace characters. -/
def noTwoWS : List Char → Bool
  | a :: b :: rest => (!(a.isWhitespace && b.isWhitespace)) && noTwoWS (b :: rest)
  | _ => true

/-- No two adjacent space characters. -/
def noTwoSpaces : List Char → Bool
  | a :: b :: rest => (!(a = ' ' && b = ' ')) && noTwoSpaces (b :: rest)
  | _ => true

/-! ## Helper lemmas -/

/-- `f"{0:.2f}"` renders as `0.00`. -/
lemma py2f_zero : py2f 0 = "0.00" := by
  have h : ⌊(0 : ℚ) * 100 + 1 / 2⌋ = 0 := by
    rw [Int.floor_eq_zero_iff]
    constructor <;> norm_num
  simp only [py2f, h]
  rfl

/-- `format_size(0)` renders as `0.00 B`, the zero-size text. -/
lemma format_size_zero : format_size 0 = "0.00 B" := by
  rw [format_size, format_size_aux, if_pos (by norm_num : (0 : ℚ) < 1024), py2f_zero]
  rfl

/-- A raw list in which every entry reports both codecs as `"none"` is
skipped entirely: the loop keeps nothing and raises nothing. -/
lemma buildFormats_all_skipped (raws : List RawFormat)
    (h : ∀ f ∈ raws, f.vcodec = some "none" ∧ f.acodec = some "none") :
    buildFormats raws = some [] := by
  induction raws with
  | nil => rfl
  | cons f rest ih =>
    have hf := h f (List.mem_cons_self f rest)
    have hk : keeps f = false := by
      simp [keeps, hf.1, hf.2]
    simp only [buildFormats, hk, Bool.false_eq_true, if_false]
    exact ih (fun g hg => h g (List.mem_cons_of_mem f hg))

/-- Every record of the built catalog comes from a raw entry that the loop
kept and processed. -/
lemma mem_buildFormats {raws : List RawFormat} {fs : List FormatInfo}
    (h : buildFormats raws = some fs) {fi : FormatInfo} (hfi : fi ∈ fs) :
    ∃ f ∈ raws, keeps f = true ∧ processFormat f = some fi := by
  induction raws generalizing fs with
  | nil =>
    simp only [buildFormats, Option.some.injEq] at h
    subst h
    cases hfi
  | cons f rest ih =>
    by_cases hk : keeps f = true
    · simp only [buildFormats, hk, if_true] at h
      cases hpf : processFormat f with
      | none => rw [hpf] at h; cases h
      | some fi' =>
        rw [hpf] at h
        cases hrest : buildFormats rest with
        | none => rw [hrest] at h; cases h
        | some fs' =>
          rw [hrest] at h
          have h2 : fi' :: fs' = fs := by simpa using h
          subst h2
          rcases List.mem_cons.mp hfi with heq | hmem
          · exact ⟨f, List.mem_cons_self f rest, hk, heq ▸ hpf⟩
          · rcases ih hrest hmem with ⟨g, hg, hkg, hpg⟩
            exact ⟨g, List.mem_cons_of_mem f hg, hkg, hpg⟩
    · have hk' : keeps f = false := by
        cases hkf : keeps f
        · rfl
        · exact absurd hkf hk
      simp only [buildFormats, hk', Bool.false_eq_true, if_false] at h
      rcases ih h hfi with ⟨g, hg, hkg, hpg⟩
      exact ⟨g, List.mem_cons_of_mem f hg, hkg, hpg⟩

/-- What `processFormat` writes into each normalized field. -/
lemma processFormat_fields {f : RawFormat} {fi : FormatInfo}
    (h : processFormat f = some fi) :
    fi.filesize = normFilesize f ∧
    fi.resolution = f.resolution.getD "N/A" ∧
    fi.format_note = f.format_note.getD "" ∧
    fi.vcodec = (if f.vcodec = some "none" then "none" else f.vcodec.getD "N/A") ∧
    fi.acodec = (if f.acodec = some "none" then "none" else f.acodec.getD "N/A") := by
  cases hv : f.vcodec with
  | none => simp [processFormat, hv] at h
  | some vc =>
    simp only [processFormat, hv] at h
    have h' := Option.some.inj h
    subst h'
    exact ⟨rfl, rfl, rfl, rfl, rfl⟩

/-! ## C1 — catalog building on a list with zero usable entries -/

/-- C1, counterexample: on a raw format list with zero usable entries
(every entry has both codecs `"none"`), `get_video_info` does not fail —
it returns a catalog whose `formats` list is empty, so the claimed
`CatalogError` never occurs. -/
theorem C1_counterexample :
    (∀ f ∈ c1info.formats, f.vcodec = some "none" ∧ f.acodec = some "none") ∧
    get_video_info (Except.ok c1info) =
      some { title := "T", duration := 10, thumbnail := none, formats := [],
             channel := "U", view_count := 5 } ∧
    get_video_info (Except.ok c1info) ≠ none := by
  decide

/-- C1, amended: for every raw format list in which every entry has both
codecs equal to `"none"` (zero usable entries), the catalog build succeeds
and returns a catalog with an empty `formats` list; no error is
signalled. -/
theorem C1_thm (raws : List RawFormat)
    (h : ∀ f ∈ raws, f.vcodec = some "none" ∧ f.acodec = some "none") :
    buildFormats raws = some [] ∧
    ∀ info : RawInfo, info.formats = raws →
      ∃ v, get_video_info (Except.ok info) = some v ∧ v.formats = [] := by
  have hb := buildFormats_all_skipped raws h
  refine ⟨hb, fun info hinfo => ?_⟩
  refine
    ⟨{ title := info.title.getD "Untitled", duration := info.duration.getD 0,
       thumbnail := info.thumbnail, formats := [],
       channel := info.uploader.getD "Unknown",
       view_count := info.view_count.getD 0 }, ?_, rfl⟩
  simp only [get_video_info, hinfo, hb]

/-- C1, witness: the amended statement evaluated on the concrete
zero-usable-entry input. -/
theorem C1_witness :
    buildFormats [c1raw] = some [] ∧
    ∀ info : RawInfo, info.formats = [c1raw] →
      ∃ v, get_video_info (Except.ok info) = some v ∧ v.formats = [] :=
  C1_thm [c1raw] (by decide)

/-! ## C2 — optional fields normalize to sentinels -/

/-- C2: every record retained in the catalog comes from a processed raw
entry in which each missing optional field was replaced by an explicit
sentinel: a missing (or zero, hence falsy) size becomes `"N/A"`, a missing
resolution becomes `"N/A"`, a missing note becomes `""` — and the
unknown-size sentinel is distinct from the rendering of size zero, so an
unknown size is never presented as a zero size. -/
theorem C2_thm (raws : List RawFormat) (fs : List FormatInfo)
    (h : buildFormats raws = some fs) (fi : FormatInfo) (hfi : fi ∈ fs) :
    ∃ f ∈ raws,
      processFormat f = some fi ∧
      ((f.filesize = none ∨ f.filesize = some 0) → fi.filesize = "N/A") ∧
      (f.resolution = none → fi.resolution = "N/A") ∧
      (f.format_note = none → fi.format_note = "") ∧
      ("N/A" : String) ≠ format_size 0 := by
  obtain ⟨f, hf, hk, hpf⟩ := mem_buildFormats h hfi
  obtain ⟨hsize, hres, hnote, -, -⟩ := processFormat_fields hpf
  refine ⟨f, hf, hpf, ?_, ?_, ?_, ?_⟩
  · intro hcase
    rw [hsize, normFilesize]
    rcases hcase with hc | hc
    · rw [hc]
    · rw [hc]
      rfl
  · intro hc
    rw [hres, hc]
    rfl
  · intro hc
    rw [hnote, hc]
    rfl
  · rw [format_size_zero]
    decide

/-- C2, witness: the statement evaluated on a concrete entry with every
optional field absent. -/
theorem C2_witness :
    ∃ f ∈ [c2raw],
      processFormat f = some c2fi ∧
      ((f.filesize = none ∨ f.filesize = some 0) → c2fi.filesize = "N/A") ∧
      (f.resolution = none → c2fi.resolution = "N/A") ∧
      (f.format_note = none → c2fi.format_note = "") ∧
      ("N/A" : String) ≠ format_size 0 :=
  C2_thm [c2raw] [c2fi] (by decide) c2fi (by decide)

/-! ## C3 — kind/codec invariant of the catalog -/

/-- No record that the loop keeps has both normalized codecs `"none"`. -/
lemma processFormat_not_both_none {f : RawFormat} {fi : FormatInfo}
    (hk : keeps f = true) (hpf : processFormat f = some fi) :
    ¬(fi.vcodec = "none" ∧ fi.acodec = "none") := by
  obtain ⟨-, -, -, hv, ha⟩ := processFormat_fields hpf
  rintro ⟨h1, h2⟩
  rw [hv] at h1
  rw [ha] at h2
  by_cases hvn : f.vcodec = some "none"
  · by_cases han : f.acodec = some "none"
    · simp [keeps, hvn, han] at hk
    · rw [if_neg han] at h2
      cases hac : f.acodec with
      | none => rw [hac] at h2; exact absurd h2 (by decide)
      | some a =>
        rw [hac] at h2
        have h2' : a = "none" := by rw [Option.getD_some] at h2; exact h2
        exact han (hac.trans (by rw [h2']))
  · rw [if_neg hvn] at h1
    cases hvc : f.vcodec with
    | none => simp [processFormat, hvc] at hpf
    | some vc =>
      rw [hvc] at h1
      have h1' : vc = "none" := by rw [Option.getD_some] at h1; exact h1
      exact hvn (hvc.trans (by rw [h1']))

/-- C3: every entry of the built catalog satisfies the kind/codec
invariant — no entry has both codecs `"none"`, every entry classified as
video (the `video_formats` selection of `main`) has a video codec, and
every entry classified as audio-only (the `audio_formats` selection) has
an audio codec and no video codec. -/
theorem C3_thm (raws : List RawFormat) (fs : List FormatInfo)
    (h : buildFormats raws = some fs) :
    (∀ fi ∈ fs, ¬(fi.vcodec = "none" ∧ fi.acodec = "none")) ∧
    (∀ fi ∈ video_formats fs, fi.vcodec ≠ "none") ∧
    (∀ fi ∈ audio_formats fs, fi.vcodec = "none" ∧ fi.acodec ≠ "none") := by
  refine ⟨fun fi hfi => ?_, fun fi hfi => ?_, fun fi hfi => ?_⟩
  · obtain ⟨f, -, hk, hpf⟩ := mem_buildFormats h hfi
    exact processFormat_not_both_none hk hpf
  · have := (List.mem_filter.mp hfi).2
    simpa using this
  · have := (List.mem_filter.mp hfi).2
    simpa using this

/-- C3, witness: the invariant evaluated on a concrete two-entry catalog
with one video and one audio-only stream. -/
theorem C3_witness :
    (∀ fi ∈ [c2fi, c3fi], ¬(fi.vcodec = "none" ∧ fi.acodec = "none")) ∧
    (∀ fi ∈ video_formats [c2fi, c3fi], fi.vcodec ≠ "none") ∧
    (∀ fi ∈ audio_formats [c2fi, c3fi],
      fi.vcodec = "none" ∧ fi.acodec ≠ "none") :=
  C3_thm [c2raw, c3raw] [c2fi, c3fi] (by decide)

/-! ## C5 — unknown total size means nothing is emitted -/

/-- C5: for every progress event whose total size is unknown (both
`total_bytes` and `total_bytes_estimate` missing or zero), the hook pushes
nothing to the progress sink — no fabricated 0% or 100% value. -/
theorem C5_thm (d : ProgressEvent)
    (h1 : d.total_bytes = none ∨ d.total_bytes = some 0)
    (h2 : d.total_bytes_estimate = none ∨ d.total_bytes_estimate = some 0) :
    download_progress_hook d = none := by
  have ht : d.total_bytes.getD 0 = 0 := by
    rcases h1 with h | h <;> rw [h] <;> rfl
  have he : d.total_bytes_estimate.getD 0 = 0 := by
    rcases h2 with h | h <;> rw [h] <;> rfl
  simp [download_progress_hook, ht, he]

/-- C5, witness: a downloading event with no total information emits
nothing. -/
theorem C5_witness :
    download_progress_hook
      { status := "downloading", total_bytes := none,
        total_bytes_estimate := none, downloaded_bytes := some 500 } = none :=
  C5_thm _ (Or.inl rfl) (Or.inl rfl)

/-! ## C6 — range and monotonicity of the emitted percentage -/

/-- C6, counterexample: the hook enforces neither monotonicity nor the
0–100 range.  Two successive events of one download with fewer bytes the
second time (as after an internal retry) emit 50 then 30, a decrease; and
an event whose only total is an estimate smaller than the bytes actually
downloaded emits 250, outside 0–100. -/
theorem C6_counterexample :
    download_progress_hook (mkEv 100 50) = some 50 ∧
    download_progress_hook (mkEv 100 30) = some 30 ∧
    ¬(50 ≤ 30) ∧
    download_progress_hook
      { status := "downloading", total_bytes := none,
        total_bytes_estimate := some 100, downloaded_bytes := some 250 } = some 250 ∧
    ¬(250 ≤ 100) := by
  decide

/-- C6, amended: the emitted value is the truncated percentage
`downloaded * 100 / total`; it lies in 0–100 whenever the downloaded bytes
do not exceed the (nonzero) total, and it is non-decreasing across events
with the same total and non-decreasing downloaded bytes.  The hook itself
tracks no per-stream id and enforces neither property when those
hypotheses fail. -/
theorem C6_thm (t d d' : Nat) (ht : t ≠ 0) (hdt : d ≤ t) (hdd : d ≤ d') :
    download_progress_hook (mkEv t d) = some (d * 100 / t) ∧
    d * 100 / t ≤ 100 ∧
    d * 100 / t ≤ d' * 100 / t := by
  refine ⟨?_, ?_, Nat.div_le_div_right (Nat.mul_le_mul_right 100 hdd)⟩
  · simp [download_progress_hook, mkEv, ht]
  · calc d * 100 / t ≤ t * 100 / t :=
          Nat.div_le_div_right (Nat.mul_le_mul_right 100 hdt)
      _ = 100 := Nat.mul_div_cancel_left 100 (Nat.pos_of_ne_zero ht)

/-- C6, witness: the amended statement at `t = 100`, `d = 30`, `d' = 50`. -/
theorem C6_witness :
    download_progress_hook (mkEv 100 30) = some (30 * 100 / 100) ∧
    30 * 100 / 100 ≤ 100 ∧
    30 * 100 / 100 ≤ 50 * 100 / 100 :=
  C6_thm 100 30 50 (by decide) (by decide) (by decide)

/-! ## C7 — error propagation -/

/-- C7, counterexample: two different failure kinds of the extraction
service produce identical results from `get_video_info`, and two different
failure kinds of the download produce identical results from
`download_video` — the caller cannot identify which error kind occurred
from what is surfaced upward. -/
theorem C7_counterexample :
    get_video_info (Except.error "DownloadError: network unreachable") =
      get_video_info (Except.error "ExtractorError: video unavailable") ∧
    download_video (Except.error "network timeout") =
      download_video (Except.error "disk full") := by
  exact ⟨rfl, rfl⟩

/-- C7, amended: every failure is converted to a fixed sentinel (`none`
for `get_video_info`, `false` for `download_video`) that is distinguishable
from every successful result — no failure masquerades as a no-op success —
but the error kind itself is not surfaced in the return value; it is only
rendered to the UI sink. -/
theorem C7_thm (e₁ e₂ : String) :
    get_video_info (Except.error e₁) = none ∧
    download_video (Except.error e₂) = false ∧
    (∀ v : VideoInfo, some v ≠ get_video_info (Except.error e₁)) ∧
    download_video (Except.ok ()) ≠ download_video (Except.error e₂) := by
  exact ⟨rfl, rfl, fun v h => Option.noConfusion h, fun h => Bool.noConfusion h⟩

/-- C7, witness: the amended statement at two concrete error kinds. -/
theorem C7_witness :
    get_video_info (Except.error "DownloadError") = none ∧
    download_video (Except.error "OSError") = false ∧
    (∀ v : VideoInfo, some v ≠ get_video_info (Except.error "DownloadError")) ∧
    download_video (Except.ok ()) ≠ download_video (Except.error "OSError") :=
  C7_thm "DownloadError" "OSError"

/-! ## C10 — URL validation -/

/-- C10: `is_valid_youtube_url` (total by construction, mirroring the
catch-all `except` of the source) rejects every host other than
`www.youtube.com`, `youtube.com` and `youtu.be`; on a youtube.com host it
rejects every path other than `/watch` and every query without a usable
`v` parameter; and on `youtu.be` it returns the path with its leading
slash removed. -/
theorem C10_thm (u : ParsedUrl) :
    (u.netloc ≠ "www.youtube.com" → u.netloc ≠ "youtube.com" →
      u.netloc ≠ "youtu.be" → is_valid_youtube_url u = none) ∧
    ((u.netloc = "www.youtube.com" ∨ u.netloc = "youtube.com") →
      u.path ≠ "/watch" → is_valid_youtube_url u = none) ∧
    ((u.netloc = "www.youtube.com" ∨ u.netloc = "youtube.com") →
      query_v u.query = none → is_valid_youtube_url u = none) ∧
    (u.netloc = "youtu.be" → is_valid_youtube_url u = some (u.path.drop 1)) := by
  refine ⟨fun h1 h2 h3 => ?_, fun hd hp => ?_, fun hd hq => ?_, fun hb => ?_⟩
  · simp [is_valid_youtube_url, h1, h2, h3]
  · rcases hd with h | h <;> simp [is_valid_youtube_url, h, hp]
  · rcases hd with h | h <;> simp [is_valid_youtube_url, h, hq]
  · simp [is_valid_youtube_url, hb]

/-- C10, witness: the four cases evaluated on concrete URLs. -/
theorem C10_witness :
    is_valid_youtube_url
      { netloc := "example.com", path := "/watch", query := [("v", "abc")] } = none ∧
    is_valid_youtube_url
      { netloc := "www.youtube.com", path := "/embed", query := [("v", "abc")] } = none ∧
    is_valid_youtube_url
      { netloc := "youtube.com", path := "/watch", query := [("list", "x")] } = none ∧
    is_valid_youtube_url
      { netloc := "youtu.be", path := "/dQw4w9WgXcQ", query := [] } = some "dQw4w9WgXcQ" := by
  refine ⟨(C10_thm _).1 (by decide) (by decide) (by decide),
          (C10_thm _).2.1 (Or.inl rfl) (by decide),
          (C10_thm _).2.2.1 (Or.inr rfl) rfl, ?_⟩
  have h := (C10_thm
    { netloc := "youtu.be", path := "/dQw4w9WgXcQ", query := [] }).2.2.2 rfl
  exact h

/-! ## C8 — Cleanup idempotence (modelled from the spec) -/

/-- Releasing a list of artifact files one by one is the same as one pass
filtering all of them out. -/
lemma foldl_delete_eq_filter (l : List (String × String)) (fs : List String) :
    l.foldl (fun acc a => deleteIfExists acc a.2) fs
      = fs.filter (fun q => !(l.any (fun a => a.2 = q))) := by
  induction l generalizing fs with
  | nil => simp
  | cons a rest ih =>
    simp only [List.foldl_cons]
    rw [ih, deleteIfExists, List.filter_filter]
    congr 1
    funext q
    simp only [List.any_cons, Bool.not_or]
    by_cases hq : a.2 = q
    · simp [hq]
    · simp [hq, Ne.symm hq]

/-- Cleanup is one filtering pass over the filesystem. -/
lemma cleanup_eq_filter (fs : List String) (s : DownloadSession) :
    cleanup fs s = fs.filter (fun q => !(s.artifacts.any (fun a => a.2 = q))) :=
  foldl_delete_eq_filter s.artifacts fs

/-- C8: running Cleanup a second time on the same session leaves the
filesystem exactly as the first run did — a no-op with no error (deletes
are guarded, so nothing is double-deleted) — and after a session runs, no
temporary per-track file of the session survives on any exit path (merge
failure included), while a successful merge's output does survive. -/
theorem C8_thm (fs0 : List String) (s : DownloadSession) (mergeOk : Bool)
    (out : String) (hout : ∀ a ∈ s.artifacts, a.2 ≠ out) :
    cleanup (cleanup fs0 s) s = cleanup fs0 s ∧
    (∀ a ∈ s.artifacts, a.2 ∉ runSession fs0 s mergeOk out) ∧
    (mergeOk = true → out ∈ runSession fs0 s mergeOk out) := by
  refine ⟨?_, ?_, ?_⟩
  · rw [cleanup_eq_filter fs0, cleanup_eq_filter, List.filter_filter]
    congr 1
    funext q
    exact Bool.and_self _
  · intro a ha
    simp only [runSession, cleanup_eq_filter]
    intro hmem
    have hpred := (List.mem_filter.mp hmem).2
    have hany : s.artifacts.any (fun x => x.2 = a.2) = true :=
      List.any_eq_true.mpr ⟨a, ha, by simp⟩
    rw [hany] at hpred
    cases hpred
  · intro hm
    simp only [runSession, cleanup_eq_filter, hm, if_true]
    apply List.mem_filter.mpr
    refine ⟨List.mem_append.mpr (Or.inr (List.mem_singleton.mpr rfl)), ?_⟩
    simp only [Bool.not_eq_true', List.any_eq_false]
    intro a ha
    simpa using hout a ha

/-- C8, witness: idempotence and temp-file removal evaluated on a concrete
session. -/
theorem C8_witness :
    cleanup (cleanup ["keep.txt"] c8s) c8s = cleanup ["keep.txt"] c8s ∧
    (∀ a ∈ c8s.artifacts, a.2 ∉ runSession ["keep.txt"] c8s true "out.mp4") ∧
    (true = true → "out.mp4" ∈ runSession ["keep.txt"] c8s true "out.mp4") :=
  C8_thm ["keep.txt"] c8s true "out.mp4" (by decide)

/-! ## C4 — no combinedPreferred quality policy exists -/

/-- C4, counterexample: a catalog holding two combined streams, 640x360
(id `"18"`) before 1280x720 (id `"22"`).  The code has no selector: the
choice offered by default (the first entry of the select box built in
`main`, in catalog order) is the 360p stream `"18"`, not the
higher-resolution stream `"22"` the claim requires. -/
theorem C4_counterexample :
    (∀ fi ∈ (buildFormats [c4raw1, c4raw2]).getD [],
      fi.vcodec ≠ "none" ∧ fi.acodec ≠ "none") ∧
    c4raw1.resolution = some "640x360" ∧
    c4raw2.resolution = some "1280x720" ∧
    c4raw2.format_id = "22" ∧
    default_selection ((buildFormats [c4raw1, c4raw2]).getD []) = some "18" ∧
    default_selection ((buildFormats [c4raw1, c4raw2]).getD []) ≠ some "22" := by
  decide

/-- Folding dict insertions of pairwise-fresh keys appends the pairs in
encounter order. -/
lemma foldl_dictInsert (l : List FormatInfo) (d : List (String × String))
    (h1 : (l.map (fun f => f.description)).Nodup)
    (h2 : ∀ f ∈ l, ∀ p ∈ d, p.1 ≠ f.description) :
    l.foldl (fun acc f => dictInsert acc f.description f.format_id) d
      = d ++ l.map (fun f => (f.description, f.format_id)) := by
  induction l generalizing d with
  | nil => simp
  | cons f rest ih =>
    have hnotin : d.any (fun p => p.1 = f.description) = false := by
      rw [List.any_eq_false]
      intro p hp
      simpa using h2 f (List.mem_cons_self f rest) p hp
    have h1' : (rest.map (fun f => f.description)).Nodup := by
      simp only [List.map_cons, List.nodup_cons] at h1
      exact h1.2
    have hfresh : f.description ∉ rest.map (fun f => f.description) := by
      simp only [List.map_cons, List.nodup_cons] at h1
      exact h1.1
    simp only [List.foldl_cons]
    rw [dictInsert, hnotin]
    simp only [Bool.false_eq_true, if_false]
    rw [ih (d ++ [(f.description, f.format_id)]) h1']
    · simp
    · intro g hg p hp
      rcases List.mem_append.mp hp with hd | hsing
      · exact h2 g (List.mem_cons_of_mem f hg) p hd
      · have hp' : p = (f.description, f.format_id) := by simpa using hsing
        subst hp'
        intro hcontra
        have : f.description = g.description := hcontra
        exact hfresh (this ▸ List.mem_map_of_mem (fun f => f.description) hg)

/-- C4, amended: `main` implements no quality policy at all.  Video mode
lists every format with a video codec in catalog order; the select box's
default choice is the first listed option, so (with pairwise-distinct
descriptions, as in the counterexample's catalog) the format selected by
default is the *first* video-capable stream in catalog order, irrespective
of its resolution or size. -/
theorem C4_thm (fs : List FormatInfo) (f : FormatInfo) (rest : List FormatInfo)
    (hv : video_formats fs = f :: rest)
    (hd : ((video_formats fs).map (fun g => g.description)).Nodup) :
    default_selection fs = some f.format_id := by
  unfold default_selection format_options
  rw [hv] at hd ⊢
  rw [foldl_dictInsert (f :: rest) [] hd (fun g _ p hp => absurd hp (List.not_mem_nil p))]
  simp

/-- C4, witness: the amended statement on the two-combined-stream
catalog. -/
theorem C4_witness : default_selection [c4fi1, c4fi2] = some c4fi1.format_id :=
  C4_thm [c4fi1, c4fi2] c4fi1 [c4fi2] (by decide) (by decide)

/-! ## C9 — sanitize_filename -/

/-- The head surviving `dropWhile p` falsifies `p`. -/
lemma dropWhile_head_false {α : Type} (p : α → Bool) (l : List α) {c : α}
    (h : (l.dropWhile p).head? = some c) : p c = false := by
  induction l with
  | nil => exact absurd h (by simp)
  | cons a t ih =>
    rw [List.dropWhile_cons] at h
    cases hp : p a
    · rw [hp] at h
      simp only [Bool.false_eq_true, if_false, List.head?_cons, Option.some.injEq] at h
      rw [← h]
      exact hp
    · rw [hp] at h
      simp only [if_true] at h
      exact ih h

/-- `dropWhile` keeps only elements of the original list. -/
lemma mem_dropWhile {α : Type} (p : α → Bool) (l : List α) {c : α}
    (h : c ∈ l.dropWhile p) : c ∈ l := by
  induction l with
  | nil => exact absurd h (by simp)
  | cons a t ih =>
    rw [List.dropWhile_cons] at h
    cases hp : p a
    · rw [hp] at h
      simpa using h
    · rw [hp] at h
      simp only [if_true] at h
      exact List.mem_cons_of_mem a (ih h)

/-- `dropWhile` removes a prefix, so a nonempty result keeps the last
element. -/
lemma getLast?_dropWhile {α : Type} (p : α → Bool) (l : List α)
    (h : l.dropWhile p ≠ []) : (l.dropWhile p).getLast? = l.getLast? := by
  induction l with
  | nil => simp at h
  | cons a t ih =>
    rw [List.dropWhile_cons] at h ⊢
    by_cases hp : p a = true
    · rw [if_pos hp] at h ⊢
      cases t with
      | nil => simp at h
      | cons b r =>
        rw [List.getLast?_cons_cons]
        exact ih h
    · rw [if_neg hp]

/-- After a Python `strip`, the first character is not whitespace. -/
lemma pyStrip_head (l : List Char) : headNotWS (pyStrip l) := by
  intro c hc
  rw [pyStrip, List.head?_reverse] at hc
  have hne : (l.dropWhile Char.isWhitespace).reverse.dropWhile Char.isWhitespace ≠ [] := by
    intro h0
    rw [h0] at hc
    cases hc
  rw [getLast?_dropWhile _ _ hne, List.getLast?_reverse] at hc
  exact dropWhile_head_false _ _ hc

/-- After a Python `strip`, the last character is not whitespace. -/
lemma pyStrip_last (l : List Char) : lastNotWS (pyStrip l) := by
  intro c hc
  rw [pyStrip, List.getLast?_reverse] at hc
  exact dropWhile_head_false _ _ hc

/-- `strip` keeps only characters of the original list. -/
lemma mem_pyStrip {l : List Char} {c : Char} (h : c ∈ pyStrip l) : c ∈ l := by
  rw [pyStrip, List.mem_reverse] at h
  have h1 := mem_dropWhile _ _ h
  rw [List.mem_reverse] at h1
  exact mem_dropWhile _ _ h1

/-- Whitespace collapsing never empties a nonempty list. -/
lemma collapse_ne_nil {l : List Char} (h : l ≠ []) : collapse l ≠ [] := by
  induction l with
  | nil => exact absurd rfl h
  | cons a t ih =>
    cases t with
    | nil =>
      simp only [collapse]
      split <;> simp
    | cons b r =>
      simp only [collapse]
      by_cases hab : (a.isWhitespace && b.isWhitespace) = true
      · rw [if_pos hab]
        exact ih (by simp)
      · rw [if_neg hab]
        simp

/-- Every character of the collapsed list is a space or an original
character. -/
lemma mem_collapse {l : List Char} {c : Char} (h : c ∈ collapse l) :
    c = ' ' ∨ c ∈ l := by
  induction l with
  | nil => simp [collapse] at h
  | cons a t ih =>
    cases t with
    | nil =>
      simp only [collapse] at h
      by_cases ha : a.isWhitespace = true
      · rw [if_pos ha] at h
        left
        simpa using h
      · rw [if_neg ha] at h
        right
        simpa using h
    | cons b r =>
      simp only [collapse] at h
      by_cases hab : (a.isWhitespace && b.isWhitespace) = true
      · rw [if_pos hab] at h
        rcases ih h with h1 | h1
        · exact Or.inl h1
        · exact Or.inr (List.mem_cons_of_mem a h1)
      · rw [if_neg hab] at h
        rcases List.mem_cons.mp h with h1 | h1
        · by_cases ha : a.isWhitespace = true
          · rw [if_pos ha] at h1
            exact Or.inl h1
          · rw [if_neg ha] at h1
            exact Or.inr (h1 ▸ List.mem_cons_self a (b :: r))
        · rcases ih h1 with h2 | h2
          · exact Or.inl h2
          · exact Or.inr (List.mem_cons_of_mem a h2)

/-- Collapsing a list whose head is not whitespace keeps that head. -/
lemma collapse_head_eq {a : Char} (t : List Char) (ha : a.isWhitespace = false) :
    ∃ r, collapse (a :: t) = a :: r := by
  cases t with
  | nil => exact ⟨[], by simp [collapse, ha]⟩
  | cons b r2 => exact ⟨collapse (b :: r2), by simp [collapse, ha]⟩

/-- Collapsing preserves a non-whitespace head. -/
lemma collapse_headNotWS {l : List Char} (h : headNotWS l) :
    headNotWS (collapse l) := by
  cases l with
  | nil =>
    intro c hc
    simp [collapse] at hc
  | cons a t =>
    have ha : a.isWhitespace = false := h a rfl
    obtain ⟨r, hr⟩ := collapse_head_eq t ha
    intro c hc
    rw [hr] at hc
    have hac : a = c := by simpa using hc
    rw [← hac]
    exact ha

/-- Consing a non-whitespace character cannot create adjacent
whitespace. -/
lemma noTwoWS_cons_of_not_ws {a : Char} (l : List Char)
    (ha : a.isWhitespace = false) : noTwoWS (a :: l) = noTwoWS l := by
  cases l with
  | nil => rfl
  | cons b r => simp [noTwoWS, ha]

/-- Consing anything onto a list with a non-whitespace head preserves
`noTwoWS`. -/
lemma noTwoWS_cons_of_headNotWS (x : Char) {l : List Char}
    (hh : headNotWS l) (hl : noTwoWS l = true) : noTwoWS (x :: l) = true := by
  cases l with
  | nil => rfl
  | cons c' r =>
    have hc' : c'.isWhitespace = false := hh c' rfl
    simp [noTwoWS, hc', hl]

/-- Collapsing leaves no two adjacent whitespace characters. -/
lemma collapse_noTwoWS (l : List Char) : noTwoWS (collapse l) = true := by
  induction l with
  | nil => rfl
  | cons a t ih =>
    cases t with
    | nil =>
      simp only [collapse]
      split <;> rfl
    | cons b r =>
      simp only [collapse]
      by_cases hab : (a.isWhitespace && b.isWhitespace) = true
      · rw [if_pos hab]
        exact ih
      · rw [if_neg hab]
        by_cases hb : b.isWhitespace = true
        · have ha : a.isWhitespace = false := by
            cases haw : a.isWhitespace
            · rfl
            · exact absurd (by rw [haw, hb]; rfl) hab
          rw [if_neg (by simp [ha])]
          rw [noTwoWS_cons_of_not_ws _ ha]
          exact ih
        · have hb' : b.isWhitespace = false := by
            cases hbb : b.isWhitespace
            · rfl
            · exact absurd hbb hb
          have hx : headNotWS (b :: r) := by
            intro c hc
            have hbc : b = c := by simpa using hc
            rw [← hbc]
            exact hb'
          exact noTwoWS_cons_of_headNotWS _ (collapse_headNotWS hx) ih

/-- Adjacent spaces are adjacent whitespace, so `noTwoWS` is the stronger
condition. -/
lemma noTwoSpaces_of_noTwoWS : ∀ {l : List Char}, noTwoWS l = true → noTwoSpaces l = true
  | [], _ => rfl
  | [_], _ => rfl
  | a :: b :: r, h => by
    simp only [noTwoWS, Bool.and_eq_true] at h
    simp only [noTwoSpaces, Bool.and_eq_true]
    refine ⟨?_, noTwoSpaces_of_noTwoWS h.2⟩
    by_cases hsp : a = ' ' ∧ b = ' '
    · exfalso
      have h1 := h.1
      rw [hsp.1, hsp.2] at h1
      simp at h1
    · rcases not_and_or.mp hsp with h3 | h3 <;> simp [h3]

/-- Collapsing preserves a non-whitespace last character. -/
lemma collapse_lastNotWS : ∀ {l : List Char}, lastNotWS l → lastNotWS (collapse l)
  | [], _ => by
    intro c hc
    simp [collapse] at hc
  | [a], h => by
    intro c hc
    have ha : a.isWhitespace = false := h a rfl
    simp only [collapse] at hc
    rw [if_neg (by simp [ha])] at hc
    have hac : a = c := by simpa using hc
    rw [← hac]
    exact ha
  | a :: b :: r, h => by
    have hlt : lastNotWS (b :: r) := by
      intro c hc
      exact h c (by rw [List.getLast?_cons_cons]; exact hc)
    intro c hc
    simp only [collapse] at hc
    by_cases hab : (a.isWhitespace && b.isWhitespace) = true
    · rw [if_pos hab] at hc
      exact collapse_lastNotWS hlt c hc
    · rw [if_neg hab] at hc
      cases hy : collapse (b :: r) with
      | nil => exact absurd hy (collapse_ne_nil (by simp))
      | cons c' r' =>
        rw [hy, List.getLast?_cons_cons] at hc
        exact collapse_lastNotWS hlt c (by rw [hy]; exact hc)

/-- C9: for every title, `sanitize_filename` returns a non-empty string of
only kept characters (alphanumerics, space, hyphen, underscore), with no
leading or trailing whitespace and no two adjacent spaces; and when the
filter removes every character it returns the fallback `"video"`. -/
theorem C9_thm (title : String) :
    sanitize_filename title ≠ "" ∧
    (∀ c ∈ (sanitize_filename title).toList, pyKeep c = true) ∧
    headNotWS (sanitize_filename title).toList ∧
    lastNotWS (sanitize_filename title).toList ∧
    noTwoSpaces (sanitize_filename title).toList = true ∧
    ((∀ c ∈ title.toList, pyKeep c = false) → sanitize_filename title = "video") := by
  by_cases hemp : (collapse (pyStrip (title.toList.filter pyKeep))).isEmpty = true
  · have heq : sanitize_filename title = "video" := by
      simp only [sanitize_filename]
      rw [if_pos hemp]
    rw [heq]
    refine ⟨by decide, by decide, ?_, ?_, by decide, fun _ => rfl⟩
    · intro c hc
      have : 'v' = c := by simpa using hc
      rw [← this]
      decide
    · intro c hc
      have : 'o' = c := by simpa using hc
      rw [← this]
      decide
  · have hemp' : (collapse (pyStrip (title.toList.filter pyKeep))).isEmpty = false := by
      cases h0 : (collapse (pyStrip (title.toList.filter pyKeep))).isEmpty
      · rfl
      · exact absurd h0 hemp
    have heq : sanitize_filename title
        = String.mk (collapse (pyStrip (title.toList.filter pyKeep))) := by
      simp only [sanitize_filename]
      rw [if_neg (by rw [hemp']; simp)]
    rw [heq]
    refine ⟨?_, ?_, ?_, ?_, ?_, ?_⟩
    · intro h
      have hLnil : collapse (pyStrip (title.toList.filter pyKeep)) = [] :=
        congrArg String.toList h
      rw [hLnil] at hemp'
      simp at hemp'
    · intro c hc
      rcases mem_collapse hc with h1 | h1
      · rw [h1]
        decide
      · exact List.of_mem_filter (mem_pyStrip h1)
    · exact collapse_headNotWS (pyStrip_head _)
    · exact collapse_lastNotWS (pyStrip_last _)
    · exact noTwoSpaces_of_noTwoWS (collapse_noTwoWS _)
    · intro hall
      exfalso
      have hfil : title.toList.filter pyKeep = [] := by
        rw [List.filter_eq_nil_iff]
        intro a ha
        rw [hall a ha]
        simp
      rw [hfil] at hemp'
      simp [pyStrip, collapse] at hemp'

/-- C9, witness: the guarantees evaluated at a messy concrete title and
the fallback at an all-invalid title. -/
theorem C9_witness :
    sanitize_filename "///" = "video" ∧ sanitize_filename "  a  b!  " ≠ "" :=
  ⟨(C9_thm "///").2.2.2.2.2 (by decide), (C9_thm "  a  b!  ").1⟩

end YoutubeDownloader
